import Mathlib

/-!
Verification of `samtools dict` (src/samtools/dict.c.pysam.c).

The development shallowly embeds `write_dict` and its helpers: sequence
bytes are `List Nat` (each byte `< 256`), the in-place normalization loop
of lines 76-79 becomes a filter-and-map over the byte list, the MD5
machinery of htslib (not part of src/) is modelled from the spec as the
standard MD5 algorithm over the normalized bytes, and the `fprintf`
calls of lines 74-112 become string concatenation.
-/

namespace DictC

/-- The value of a byte when read through C's (signed) `char`, as in the
comparison `seq->seq.s[i] >= '!' && seq->seq.s[i] <= '~'` on line 77. -/
def signed_char (b : Nat) : Int :=
  if b < 128 then (b : Int) else (b : Int) - 256

/-- Line 77: the byte is kept when `'!' <= c && c <= '~'` under signed
`char` comparison (`'!'` = 33, `'~'` = 126). -/
def retained (b : Nat) : Bool :=
  decide (33 ≤ signed_char b ∧ signed_char b ≤ 126)

/-- C `toupper` in the ASCII range, as applied on line 78. -/
def toupper_c (b : Nat) : Nat :=
  if 97 ≤ b ∧ b ≤ 122 then b - 32 else b

/-- The compaction loop of lines 76-79: keep the retained bytes, in
order, case-folded to uppercase.  The retained count `k` is the length
of this list. -/
def normalize (s : List Nat) : List Nat :=
  (s.filter retained).map toupper_c

/-! ### MD5 (htslib `hts_md5_*`, not under src/)

Modelled from the spec: the spec (§4.2) requires the digest to be
"bit-for-bit reproducible against the standard MD5 algorithm over the
normalized byte stream"; the `hts_md5_init/reset/update/final` functions
live in htslib, outside src/, so the standard MD5 algorithm (RFC 1321)
is embedded here over byte lists, with 32-bit words as `Nat` reduced
modulo `2^32`. -/

def w32 : Nat := 4294967296

/-- Left-rotation of a 32-bit word. -/
def rotl32 (x s : Nat) : Nat :=
  (((x % w32) <<< s) % w32) ||| ((x % w32) >>> (32 - s))

/-- The 64 MD5 sine-derived constants. -/
def md5K : List Nat :=
  [0xd76aa478, 0xe8c7b756, 0x242070db, 0xc1bdceee,
   0xf57c0faf, 0x4787c62a, 0xa8304613, 0xfd469501,
   0x698098d8, 0x8b44f7af, 0xffff5bb1, 0x895cd7be,
   0x6b901122, 0xfd987193, 0xa679438e, 0x49b40821,
   0xf61e2562, 0xc040b340, 0x265e5a51, 0xe9b6c7aa,
   0xd62f105d, 0x02441453, 0xd8a1e681, 0xe7d3fbc8,
   0x21e1cde6, 0xc33707d6, 0xf4d50d87, 0x455a14ed,
   0xa9e3e905, 0xfcefa3f8, 0x676f02d9, 0x8d2a4c8a,
   0xfffa3942, 0x8771f681, 0x6d9d6122, 0xfde5380c,
   0xa4beea44, 0x4bdecfa9, 0xf6bb4b60, 0xbebfbc70,
   0x289b7ec6, 0xeaa127fa, 0xd4ef3085, 0x04881d05,
   0xd9d4d039, 0xe6db99e5, 0x1fa27cf8, 0xc4ac5665,
   0xf4292244, 0x432aff97, 0xab9423a7, 0xfc93a039,
   0x655b59c3, 0x8f0ccc92, 0xffeff47d, 0x85845dd1,
   0x6fa87e4f, 0xfe2ce6e0, 0xa3014314, 0x4e0811a1,
   0xf7537e82, 0xbd3af235, 0x2ad7d2bb, 0xeb86d391]

/-- The 64 per-round left-rotation amounts. -/
def md5S : List Nat :=
  [7, 12, 17, 22, 7, 12, 17, 22, 7, 12, 17, 22, 7, 12, 17, 22,
   5, 9, 14, 20, 5, 9, 14, 20, 5, 9, 14, 20, 5, 9, 14, 20,
   4, 11, 16, 23, 4, 11, 16, 23, 4, 11, 16, 23, 4, 11, 16, 23,
   6, 10, 15, 21, 6, 10, 15, 21, 6, 10, 15, 21, 6, 10, 15, 21]

/-- The nonlinear function of round `i`. -/
def md5F (i b c d : Nat) : Nat :=
  if i < 16 then (b &&& c) ||| ((0xffffffff ^^^ b) &&& d)
  else if i < 32 then (d &&& b) ||| ((0xffffffff ^^^ d) &&& c)
  else if i < 48 then b ^^^ c ^^^ d
  else c ^^^ (b ||| (0xffffffff ^^^ d))

/-- The message-word index used in round `i`. -/
def md5G (i : Nat) : Nat :=
  if i < 16 then i
  else if i < 32 then (5 * i + 1) % 16
  else if i < 48 then (3 * i + 5) % 16
  else (7 * i) % 16

/-- One MD5 round applied to the state `(a, b, c, d)`; `M` yields the
little-endian 32-bit words of the current block. -/
def md5Round (M : Nat → Nat) (st : Nat × Nat × Nat × Nat) (i : Nat) :
    Nat × Nat × Nat × Nat :=
  let f := (md5F i st.2.1 st.2.2.1 st.2.2.2 + st.1 + md5K.getD i 0 + M (md5G i)) % w32
  (st.2.2.2, (st.2.1 + rotl32 f (md5S.getD i 0)) % w32, st.2.1, st.2.2.1)

/-- Word `j` of a 64-byte block, little-endian. -/
def leWord (block : List Nat) (j : Nat) : Nat :=
  block.getD (4 * j) 0 + 256 * block.getD (4 * j + 1) 0 +
    65536 * block.getD (4 * j + 2) 0 + 16777216 * block.getD (4 * j + 3) 0

/-- Process one 64-byte block. -/
def md5ProcessBlock (st : Nat × Nat × Nat × Nat) (block : List Nat) :
    Nat × Nat × Nat × Nat :=
  let r := (List.range 64).foldl (md5Round (leWord block)) st
  ((st.1 + r.1) % w32, (st.2.1 + r.2.1) % w32,
   (st.2.2.1 + r.2.2.1) % w32, (st.2.2.2 + r.2.2.2) % w32)

/-- MD5 padding: a `0x80` byte, zeros to 56 mod 64, then the bit length
as a little-endian 64-bit quantity. -/
def md5Pad (msg : List Nat) : List Nat :=
  msg ++ [128] ++ List.replicate ((119 - msg.length % 64) % 64) 0 ++
    (List.range 8).map (fun i => (((8 * msg.length) % 2 ^ 64) >>> (8 * i)) &&& 255)

/-- Split a byte list into 64-byte chunks; the fuel (first argument)
is an upper bound on the number of chunks, `l.length` sufficing since
every step consumes 64 bytes. -/
def chunksAux : Nat → List Nat → List (List Nat)
  | 0, _ => []
  | fuel + 1, l => if l = [] then [] else l.take 64 :: chunksAux fuel (l.drop 64)

def chunks64 (l : List Nat) : List (List Nat) :=
  chunksAux l.length l

/-- The 16-byte MD5 digest of a byte list, little-endian serialization
of the final state. -/
def md5Bytes (msg : List Nat) : List Nat :=
  let st := (chunks64 (md5Pad msg)).foldl md5ProcessBlock
    (0x67452301, 0xefcdab89, 0x98badcfe, 0x10325476)
  [st.1, st.2.1, st.2.2.1, st.2.2.2].flatMap
    (fun x => (List.range 4).map (fun i => (x >>> (8 * i)) &&& 255))

/-- One hexadecimal digit, lowercase. -/
def hexDigit (n : Nat) : Char :=
  Char.ofNat (if n < 10 then 48 + n else 87 + n)

/-- Modelled from the spec: htslib's `hts_md5_hex` (not under src/)
renders a 16-byte digest as lowercase hexadecimal, two zero-padded
digits per byte. -/
def hts_md5_hex (digest16 : List Nat) : String :=
  ⟨digest16.flatMap (fun b => [hexDigit (b / 16), hexDigit (b % 16)])⟩

/-- The DigestEngine contract of spec §4.2, assembled exactly as lines
76-83 of `write_dict` do: normalize in place, then hash the `k`
retained bytes with a freshly reset MD5 accumulator. -/
def digest (s : List Nat) : Nat × String :=
  ((normalize s).length, hts_md5_hex (md5Bytes (normalize s)))

/-! ### The dictionary writer (lines 47-119 of dict.c.pysam.c) -/

/-- One FASTA record as handed to the loop body of `write_dict`:
`seq->name.s` and the raw sequence bytes `seq->seq.s` (each `< 256`). -/
structure SeqRecord where
  name : String
  seq : List Nat

/-- `args_t` (lines 39-45), without `fname` (which `dict_main` never
stores there: the input name is the separate `fn` parameter). NULL
pointers become `none`, the two `int` flags become `Bool`. -/
structure Args where
  output_fname : Option String
  assembly : Option String
  species : Option String
  uri : Option String
  alias_flag : Bool
  header : Bool

/-- Decimal rendering of the retained count, as `fprintf`'s `%d` prints
the nonnegative `int k` on line 84; the fuel (first argument) bounds the
digit count, `n` itself sufficing. -/
def natDecAux : Nat → Nat → List Char → List Char
  | 0, _, acc => acc
  | fuel + 1, n, acc =>
    if n = 0 then acc
    else natDecAux fuel (n / 10) (Char.ofNat (48 + n % 10) :: acc)

def natDec (n : Nat) : String :=
  if n = 0 then "0" else ⟨natDecAux n n []⟩

/-- Lines 94-97: the mitochondrial alternatives appended after the
derived alias, keyed on the bare (chr-stripped) name. -/
def mito_alternatives (base : String) : String :=
  if base = "M" then ",chrMT,MT"
  else if base = "MT" then ",chrM,M"
  else ""

/-- Line 87: `strncmp(name, "chr", 3) == 0`, i.e. the first three
characters are `c`, `h`, `r` (a shorter name compares unequal at its
terminating NUL). -/
def starts_with_chr (name : String) : Bool :=
  decide (name.data.take 3 = ['c', 'h', 'r'])

/-- Line 88: the pointer advance `name += 3`. -/
def drop3 (name : String) : String :=
  ⟨name.data.drop 3⟩

/-- Lines 85-98: the `\tAN:` field.  When the name starts with `chr`
the pointer is advanced past that part and the rest is printed;
otherwise `chr` is prepended; the `M`/`MT` comparison then runs on the
(possibly advanced) `name` pointer, i.e. on the bare form. -/
def an_field (alias_on : Bool) (name : String) : String :=
  if alias_on then
    if starts_with_chr name then
      "\tAN:" ++ drop3 name ++ mito_alternatives (drop3 name)
    else
      "\tAN:chr" ++ name ++ mito_alternatives name
  else ""

/-- Lines 99-109: the `\tUR:` field.  An explicit `-u` URI wins
verbatim; otherwise a non-stdin input name is resolved through
`realpath` (external collaborator, abstracted as a function) and
prefixed with `file://`; stdin emits nothing. -/
def ur_field (uri : Option String) (realpath : String → String) (fn : String) : String :=
  match uri with
  | some u => "\tUR:" ++ u
  | none => if fn ≠ "-" then "\tUR:file://" ++ realpath fn else ""

/-- Line 110: the `\tAS:` field. -/
def as_field (assembly : Option String) : String :=
  match assembly with
  | some a => "\tAS:" ++ a
  | none => ""

/-- Line 111: the `\tSP:` field. -/
def sp_field (species : Option String) : String :=
  match species with
  | some s => "\tSP:" ++ s
  | none => ""

/-- Lines 84-111: everything printed for one record before the final
newline of line 112. -/
def recordBody (args : Args) (realpath : String → String) (fn : String)
    (r : SeqRecord) : String :=
  "@SQ\tSN:" ++ r.name ++ "\tLN:" ++ natDec (digest r.seq).1 ++ "\tM5:" ++
    (digest r.seq).2 ++ an_field args.alias_flag r.name ++
    ur_field args.uri realpath fn ++ as_field args.assembly ++
    sp_field args.species

/-- One full record line, lines 84-112. -/
def recordLine (args : Args) (realpath : String → String) (fn : String)
    (r : SeqRecord) : String :=
  recordBody args realpath fn r ++ "\n"

/-- Line 74: the optional `@HD` header. -/
def headerStr (args : Args) : String :=
  if args.header then "@HD\tVN:1.0\tSO:unsorted\n" else ""

/-- The `while ((l = kseq_read(seq)) >= 0)` loop of lines 75-113, one
record line appended per iteration, in input order. -/
def write_records (args : Args) (realpath : String → String) (fn : String) :
    List SeqRecord → String
  | [] => ""
  | r :: rs => recordLine args realpath fn r ++ write_records args realpath fn rs

/-- The output text produced by `write_dict` for a given record stream:
optional header first (line 74), then the record loop. -/
def write_dict (fn : String) (args : Args) (realpath : String → String)
    (records : List SeqRecord) : String :=
  headerStr args ++ write_records args realpath fn records

/-- Line 56: `strcmp(fn, "-") ? gzopen(fn, "r") : gzdopen(fileno(stdin), "r")`. -/
inductive InputSource where
  | stdin_src : InputSource
  | file : String → InputSource
deriving DecidableEq

def openInput (fn : String) : InputSource :=
  if fn = "-" then InputSource.stdin_src else InputSource.file fn

/-- Modelled from the spec and line 75 of src: `kseq_read` (htslib, not
under src/) returns one record per call and a negative value when no
further record comes — `-1` at end-of-file, a different negative value
on a mid-stream read error.  The loop condition
`while ((l = kseq_read(seq)) >= 0)` stops at the first negative return
without inspecting which negative value it was. -/
inductive ReadEnd where
  | eof : ReadEnd
  | err : ReadEnd
deriving DecidableEq

/-- The observable result of one `write_dict` run — the text written to
`out` and the process exit status — for an input whose open succeeded
iff `opened`, which yielded `records` before the loop's first negative
`kseq_read` return, the return happening for reason `ending`.
Lines 56-60: a failed open prints to stderr and calls
`samtools_exit(1)` before anything is written to `out`.  Line 75: once
the stream is open, the loop emits every record it read and ends on any
negative return; `ending` is never examined, so a mid-stream read error
leaves the same (partial) output and the same exit status 0 as a clean
end-of-file. -/
def run_dict (fn : String) (args : Args) (realpath : String → String)
    (opened : Bool) (records : List SeqRecord) (ending : ReadEnd) :
    String × Nat :=
  if opened then (write_dict fn args realpath records, 0) else ("", 1)

/-- Split a character stream into lines at `\n` (the accumulator holds
the current line, reversed). -/
def splitLinesAux : List Char → List Char → List (List Char)
  | [], cur => [cur.reverse]
  | c :: rest, cur =>
    if c = '\n' then cur.reverse :: splitLinesAux rest []
    else splitLinesAux rest (c :: cur)

/-- Modelled from the spec (§4.1, §9): the SequenceReader (htslib's
`kseq.h`, not under src/) as the explicit line state machine of §9.  A
record begins at a line starting with `>`; the name is everything after
`>` up to the first whitespace; the rest of the header line is
discarded; the following non-header lines, newlines stripped, form the
sequence.  The second argument carries the record under construction. -/
def parseStep : List (List Char) → Option (String × List Char) → List SeqRecord
  | [], none => []
  | [], some (n, sq) => [{ name := n, seq := sq.map Char.toNat }]
  | l :: ls, cur =>
    if l.take 1 = ['>'] then
      match cur with
      | none =>
        parseStep ls (some (⟨(l.drop 1).takeWhile (fun c => !c.isWhitespace)⟩, []))
      | some (n, sq) =>
        { name := n, seq := sq.map Char.toNat } ::
          parseStep ls (some (⟨(l.drop 1).takeWhile (fun c => !c.isWhitespace)⟩, []))
    else
      match cur with
      | none => parseStep ls none
      | some (n, sq) => parseStep ls (some (n, sq ++ l))

def parseFasta (input : String) : List SeqRecord :=
  parseStep (splitLinesAux input.data []) none

/-- The lowercase hexadecimal alphabet. -/
def hexAlphabet : List Char := "0123456789abcdef".data

/-- The decimal digit alphabet (what `%d` can print for a nonnegative
`int`). -/
def decAlphabet : List Char := "0123456789".data

/-- The options produced by `dict_main` when no flag is given:
`calloc` zeroes every field (lines 139), then `args->header = 1`
(line 140). -/
def default_args : Args :=
  { output_fname := none, assembly := none, species := none, uri := none,
    alias_flag := false, header := true }

end DictC

namespace DictC

/-! ### Helper lemmas -/

theorem toupper_c_idem (b : Nat) : toupper_c (toupper_c b) = toupper_c b := by
  unfold toupper_c
  split_ifs with h1 h2 <;> omega

theorem retained_toupper_c (b : Nat) (hb : retained b = true) :
    retained (toupper_c b) = true := by
  simp only [retained, signed_char, toupper_c, decide_eq_true_eq] at *
  split_ifs at * <;> omega

theorem retained_iff_range (b : Nat) (h : b < 256) :
    retained b = decide (33 ≤ b ∧ b ≤ 126) := by
  simp only [retained, signed_char]
  split_ifs with h1 <;> (rw [decide_eq_decide]; omega)

theorem normalize_idem (s : List Nat) : normalize (normalize s) = normalize s := by
  unfold normalize
  rw [List.filter_map]
  have h3 : (s.filter retained).filter (retained ∘ toupper_c) = s.filter retained :=
    List.filter_eq_self.mpr
      (fun x hx => retained_toupper_c x (List.mem_filter.mp hx).2)
  rw [h3, List.map_map]
  exact List.map_congr_left (fun x _ => toupper_c_idem x)

theorem flatMap_pairs_length (f g : Nat → Char) (d : List Nat) :
    (d.flatMap (fun b => [f b, g b])).length = 2 * d.length := by
  induction d with
  | nil => simp
  | cons a d ih => simp [ih]; omega

theorem hexDigit_mem_alphabet : ∀ n < 16, hexDigit n ∈ hexAlphabet := by
  decide

theorem md5Bytes_length (msg : List Nat) : (md5Bytes msg).length = 16 := by
  simp [md5Bytes]

theorem md5Bytes_lt (msg : List Nat) : ∀ x ∈ md5Bytes msg, x < 256 := by
  intro x hx
  simp only [md5Bytes, List.mem_flatMap, List.mem_map, List.mem_range] at hx
  obtain ⟨y, -, i, -, rfl⟩ := hx
  have : (y >>> (8 * i)) &&& 255 ≤ 255 := Nat.and_le_right
  omega

theorem hts_md5_hex_length (d : List Nat) (h : d.length = 16) :
    (hts_md5_hex d).length = 32 := by
  show (d.flatMap (fun b => [hexDigit (b / 16), hexDigit (b % 16)])).length = 32
  rw [flatMap_pairs_length, h]

theorem hts_md5_hex_chars (d : List Nat) (h : ∀ b ∈ d, b < 256) :
    ∀ c ∈ (hts_md5_hex d).data, c ∈ hexAlphabet := by
  intro c hc
  simp only [hts_md5_hex, List.mem_flatMap] at hc
  obtain ⟨b, hb, hcb⟩ := hc
  have hb256 := h b hb
  simp only [List.mem_cons, List.not_mem_nil, or_false] at hcb
  rcases hcb with h1 | h1
  · exact h1 ▸ hexDigit_mem_alphabet (b / 16) (by omega)
  · exact h1 ▸ hexDigit_mem_alphabet (b % 16) (by omega)

theorem normalize_filter_range (s : List Nat) (h : ∀ b ∈ s, b < 256) :
    normalize s = (s.filter (fun b => decide (33 ≤ b ∧ b ≤ 126))).map toupper_c := by
  unfold normalize
  rw [List.filter_congr (fun b hb => retained_iff_range b (h b hb))]

/-! ### The claims -/

/-- C1: `digest` returns the count of input bytes in the inclusive range
`0x21..0x7E` together with the lowercase hexadecimal rendering (exactly
32 characters, two zero-padded digits per byte) of the MD5 of exactly
those retained bytes case-folded to uppercase, with a fresh accumulator
per call. -/
theorem C1_digest_contract (s : List Nat) (h : ∀ b ∈ s, b < 256) :
    (digest s).1 = (s.filter (fun b => decide (33 ≤ b ∧ b ≤ 126))).length ∧
    (digest s).2 =
      hts_md5_hex (md5Bytes
        ((s.filter (fun b => decide (33 ≤ b ∧ b ≤ 126))).map toupper_c)) ∧
    (digest s).2.length = 32 ∧
    ∀ c ∈ (digest s).2.data, c ∈ hexAlphabet := by
  refine ⟨?_, ?_, ?_, ?_⟩
  · show (normalize s).length = _
    rw [normalize_filter_range s h, List.length_map]
  · show hts_md5_hex (md5Bytes (normalize s)) = _
    rw [normalize_filter_range s h]
  · exact hts_md5_hex_length _ (md5Bytes_length _)
  · exact hts_md5_hex_chars _ (md5Bytes_lt _)

/-- Witness for C1 at the concrete byte list `[65, 98, 33, 10, 200]`
(`A`, `b`, `!`, newline, a non-ASCII byte): three bytes are retained. -/
theorem C1_digest_contract_witness :
    (∀ b ∈ ([65, 98, 33, 10, 200] : List Nat), b < 256) ∧
    ((digest [65, 98, 33, 10, 200]).1 =
        (([65, 98, 33, 10, 200] : List Nat).filter
          (fun b => decide (33 ≤ b ∧ b ≤ 126))).length ∧
      (digest [65, 98, 33, 10, 200]).2 =
        hts_md5_hex (md5Bytes
          ((([65, 98, 33, 10, 200] : List Nat).filter
            (fun b => decide (33 ≤ b ∧ b ≤ 126))).map toupper_c)) ∧
      (digest [65, 98, 33, 10, 200]).2.length = 32 ∧
      ∀ c ∈ (digest [65, 98, 33, 10, 200]).2.data, c ∈ hexAlphabet) :=
  ⟨by decide, C1_digest_contract [65, 98, 33, 10, 200] (by decide)⟩

/-- C8: normalization is idempotent — renormalizing an already
normalized sequence yields the same bytes, hence the same length and
digest — and the normalized length never exceeds the input length. -/
theorem C8_normalize_idempotent (s : List Nat) :
    normalize (normalize s) = normalize s ∧
    digest (normalize s) = digest s ∧
    (normalize s).length ≤ s.length := by
  refine ⟨normalize_idem s, ?_, ?_⟩
  · unfold digest
    rw [normalize_idem s]
  · calc (normalize s).length = (s.filter retained).length := List.length_map _ _
      _ ≤ s.length := List.length_filter_le _ _

/-- C2: with alias emission enabled, a `chr`-prefixed name is stripped
and any other name gets `chr` prepended; the two mitochondrial
alternatives are appended exactly when the bare form equals `M`
(appending `chrMT,MT`) or `MT` (appending `chrM,M`), and for no other
name; `chrM`, `MT` and `1` produce the three documented alias fields. -/
theorem C2_alias_derivation :
    (∀ name : String, starts_with_chr name = true →
      an_field true name = "\tAN:" ++ drop3 name ++ mito_alternatives (drop3 name)) ∧
    (∀ name : String, starts_with_chr name = false →
      an_field true name = "\tAN:chr" ++ name ++ mito_alternatives name) ∧
    mito_alternatives "M" = ",chrMT,MT" ∧
    mito_alternatives "MT" = ",chrM,M" ∧
    (∀ base : String, base ≠ "M" → base ≠ "MT" → mito_alternatives base = "") ∧
    an_field true "chrM" = "\tAN:M,chrMT,MT" ∧
    an_field true "MT" = "\tAN:chrMT,chrM,M" ∧
    an_field true "1" = "\tAN:chr1" := by
  refine ⟨?_, ?_, by decide, by decide, ?_, by decide, by decide, by decide⟩
  · intro name h
    simp [an_field, h]
  · intro name h
    simp [an_field, h]
  · intro base h1 h2
    simp [mito_alternatives, h1, h2]

/-- Witness for C2: the stripped branch at the concrete name `chrM`. -/
theorem C2_alias_derivation_witness :
    (starts_with_chr "chrM" = true) ∧
    an_field true "chrM" =
      "\tAN:" ++ drop3 "chrM" ++ mito_alternatives (drop3 "chrM") :=
  ⟨by decide, C2_alias_derivation.1 "chrM" (by decide)⟩

/-- C3: an explicit URI option is emitted verbatim for any input
identifier; with no URI option a named file yields
`file://` + resolved absolute path (the external `realpath`
collaborator), and standard input yields no UR field at all. -/
theorem C3_uri_policy :
    (∀ (u fn : String) (rp : String → String),
      ur_field (some u) rp fn = "\tUR:" ++ u) ∧
    (∀ (fn : String) (rp : String → String), fn ≠ "-" →
      ur_field none rp fn = "\tUR:file://" ++ rp fn) ∧
    (∀ rp : String → String, ur_field none rp "-" = "") := by
  refine ⟨fun u fn rp => rfl, ?_, ?_⟩
  · intro fn rp h
    simp [ur_field, h]
  · intro rp
    simp [ur_field]

/-- Witness for C3: the `file://` branch at the concrete name `ref.fa`
with the identity resolver. -/
theorem C3_uri_policy_witness :
    (("ref.fa" : String) ≠ "-") ∧
    ur_field none (fun s => s) "ref.fa" = "\tUR:file://" ++ (fun s : String => s) "ref.fa" :=
  ⟨by decide, C3_uri_policy.2.1 "ref.fa" (fun s => s) (by decide)⟩

set_option maxRecDepth 100000 in
/-- C4 counterexample: with the stream open and one record already read
when a mid-stream read error ends the loop, the run keeps the partial
output (one full record line, a nonempty string), exits with status 0,
and is indistinguishable from a clean end-of-file — refuting the claim
that a read failure aborts with nonzero status and no partial output
and that no read error is silently swallowed. -/
theorem C4_read_error_counterexample :
    run_dict "-" default_args (fun s => s) true
        [{ name := "chr1", seq := "ACGT".data.map Char.toNat }] ReadEnd.err =
      run_dict "-" default_args (fun s => s) true
        [{ name := "chr1", seq := "ACGT".data.map Char.toNat }] ReadEnd.eof ∧
    (run_dict "-" default_args (fun s => s) true
        [{ name := "chr1", seq := "ACGT".data.map Char.toNat }] ReadEnd.err).2 = 0 ∧
    (run_dict "-" default_args (fun s => s) true
        [{ name := "chr1", seq := "ACGT".data.map Char.toNat }] ReadEnd.err).1 ≠ "" := by
  refine ⟨rfl, rfl, ?_⟩
  decide

/-- C4 (amended): a failed input open is fatal — exit status 1 and no
output at all; but a mid-stream read error is not: line 75 treats any
negative `kseq_read` return as end-of-stream, so the records already
read remain emitted as partial output and the process exits 0, exactly
as on end-of-file — the read error is silently swallowed. -/
theorem C4_read_error_swallowed (fn : String) (args : Args)
    (rp : String → String) (records : List SeqRecord) (ending : ReadEnd) :
    run_dict fn args rp false records ending = ("", 1) ∧
    run_dict fn args rp true records ending =
      (write_dict fn args rp records, 0) ∧
    run_dict fn args rp true records ReadEnd.err =
      run_dict fn args rp true records ReadEnd.eof :=
  ⟨rfl, rfl, rfl⟩

/-- C9: a record named exactly `chr` gets the empty derived alias
(`AN:` with nothing after it) and no mitochondrial extras, since the
stripped base is the empty string. -/
theorem C9_chr_empty_alias :
    an_field true "chr" = "\tAN:" ∧
    drop3 "chr" = "" ∧
    mito_alternatives "" = "" := by
  decide

/-- C10: the positional input name `-` selects standard input rather
than a file named `-`, and with no explicit URI option such input emits
no UR field. -/
theorem C10_stdin_sentinel :
    openInput "-" = InputSource.stdin_src ∧
    (∀ fn : String, fn ≠ "-" → openInput fn = InputSource.file fn) ∧
    (∀ rp : String → String, ur_field none rp "-" = "") := by
  refine ⟨rfl, ?_, ?_⟩
  · intro fn h
    simp [openInput, h]
  · intro rp
    simp [ur_field]

/-- Witness for C10: a name other than `-` opens the named file. -/
theorem C10_stdin_sentinel_witness :
    (("in.fa" : String) ≠ "-") ∧ openInput "in.fa" = InputSource.file "in.fa" :=
  ⟨by decide, C10_stdin_sentinel.2.1 "in.fa" (by decide)⟩

theorem digitChar_mem : ∀ r < 10, Char.ofNat (48 + r) ∈ decAlphabet := by
  decide

theorem natDecAux_chars (fuel : Nat) : ∀ (n : Nat) (acc : List Char),
    (∀ c ∈ acc, c ∈ decAlphabet) → ∀ c ∈ natDecAux fuel n acc, c ∈ decAlphabet := by
  induction fuel with
  | zero => intro n acc h; exact h
  | succ fuel ih =>
    intro n acc h
    rw [natDecAux]
    split
    · exact h
    · apply ih
      intro c hc
      rcases List.mem_cons.mp hc with h1 | h1
      · exact h1 ▸ digitChar_mem (n % 10) (Nat.mod_lt _ (by omega))
      · exact h c h1

theorem natDec_chars (n : Nat) : ∀ c ∈ (natDec n).data, c ∈ decAlphabet := by
  by_cases h : n = 0
  · simp only [natDec, if_pos h]; decide
  · simp only [natDec, if_neg h]
    exact natDecAux_chars n n [] (by simp)

theorem append_no_nl {s t : String} (hs : '\n' ∉ s.data) (ht : '\n' ∉ t.data) :
    '\n' ∉ (s ++ t).data := by
  intro hc
  rw [String.data_append] at hc
  rcases List.mem_append.mp hc with h | h
  · exact hs h
  · exact ht h

theorem mito_no_nl (base : String) : '\n' ∉ (mito_alternatives base).data := by
  unfold mito_alternatives
  split_ifs <;> decide

theorem an_field_no_nl (b : Bool) (name : String) (h : '\n' ∉ name.data) :
    '\n' ∉ (an_field b name).data := by
  unfold an_field
  split_ifs with h1 h2
  · refine append_no_nl (append_no_nl (by decide) ?_) (mito_no_nl _)
    intro hc
    exact h (List.drop_subset 3 name.data hc)
  · exact append_no_nl (append_no_nl (by decide) h) (mito_no_nl _)
  · decide

theorem ur_field_no_nl (uri : Option String) (rp : String → String) (fn : String)
    (h1 : ∀ u, uri = some u → '\n' ∉ u.data)
    (h2 : uri = none → '\n' ∉ (rp fn).data) :
    '\n' ∉ (ur_field uri rp fn).data := by
  unfold ur_field
  cases uri with
  | some u => exact append_no_nl (by decide) (h1 u rfl)
  | none =>
    split_ifs with hf
    · exact append_no_nl (by decide) (h2 rfl)
    · decide

theorem as_field_no_nl (a : Option String)
    (h : ∀ x, a = some x → '\n' ∉ x.data) : '\n' ∉ (as_field a).data := by
  unfold as_field
  cases a with
  | some x => exact append_no_nl (by decide) (h x rfl)
  | none => decide

theorem sp_field_no_nl (a : Option String)
    (h : ∀ x, a = some x → '\n' ∉ x.data) : '\n' ∉ (sp_field a).data := by
  unfold sp_field
  cases a with
  | some x => exact append_no_nl (by decide) (h x rfl)
  | none => decide

theorem hex_digest_no_nl (s : List Nat) : '\n' ∉ (digest s).2.data := by
  intro hc
  have := hts_md5_hex_chars _ (md5Bytes_lt (normalize s)) '\n' hc
  exact absurd this (by decide)

theorem natDec_no_nl (n : Nat) : '\n' ∉ (natDec n).data := by
  intro hc
  exact absurd (natDec_chars n '\n' hc) (by decide)

theorem recordBody_no_nl (args : Args) (rp : String → String) (fn : String)
    (r : SeqRecord)
    (hname : '\n' ∉ r.name.data)
    (hu : ∀ u, args.uri = some u → '\n' ∉ u.data)
    (hrp : args.uri = none → '\n' ∉ (rp fn).data)
    (ha : ∀ a, args.assembly = some a → '\n' ∉ a.data)
    (hsp : ∀ s, args.species = some s → '\n' ∉ s.data) :
    '\n' ∉ (recordBody args rp fn r).data := by
  unfold recordBody
  exact append_no_nl (append_no_nl (append_no_nl (append_no_nl (append_no_nl
    (append_no_nl (append_no_nl (append_no_nl (append_no_nl (by decide) hname)
      (by decide)) (natDec_no_nl _)) (by decide)) (hex_digest_no_nl _))
    (an_field_no_nl _ _ hname)) (ur_field_no_nl _ _ _ hu hrp))
    (as_field_no_nl _ ha)) (sp_field_no_nl _ hsp)

theorem prefix_append_str {p : List Char} {s : String} (t : String)
    (h : List.IsPrefix p s.data) : List.IsPrefix p (s ++ t).data := by
  rw [String.data_append]
  exact h.trans (List.prefix_append _ _)

/-- C5: for every record exactly one output line is emitted, in input
order, of the form `@SQ\tSN:<name>\tLN:<length>\tM5:<hex_digest>`
followed by the optional fields in the fixed order AN, UR, AS, SP and a
trailing newline; when no field value embeds a newline the record
contributes exactly one newline, the trailing one. -/
theorem C5_record_line_format (args : Args) (rp : String → String) (fn : String)
    (records : List SeqRecord) :
    write_dict fn args rp records =
      headerStr args ++ write_records args rp fn records ∧
    (∀ (r : SeqRecord) (rs : List SeqRecord),
      write_records args rp fn (r :: rs) =
        recordLine args rp fn r ++ write_records args rp fn rs) ∧
    (∀ r : SeqRecord, recordLine args rp fn r =
      "@SQ\tSN:" ++ r.name ++ "\tLN:" ++ natDec (digest r.seq).1 ++ "\tM5:" ++
        (digest r.seq).2 ++ an_field args.alias_flag r.name ++
        ur_field args.uri rp fn ++ as_field args.assembly ++
        sp_field args.species ++ "\n") ∧
    (∀ r : SeqRecord,
      '\n' ∉ r.name.data →
      (∀ u, args.uri = some u → '\n' ∉ u.data) →
      (args.uri = none → '\n' ∉ (rp fn).data) →
      (∀ a, args.assembly = some a → '\n' ∉ a.data) →
      (∀ s, args.species = some s → '\n' ∉ s.data) →
      (recordBody args rp fn r).data.count '\n' = 0 ∧
      (recordLine args rp fn r).data.count '\n' = 1) := by
  refine ⟨rfl, fun r rs => rfl, fun r => rfl, ?_⟩
  intro r hname hu hrp ha hsp
  have hbody := recordBody_no_nl args rp fn r hname hu hrp ha hsp
  refine ⟨List.count_eq_zero.mpr hbody, ?_⟩
  show ((recordBody args rp fn r ++ "\n")).data.count '\n' = 1
  rw [String.data_append, List.count_append, List.count_eq_zero.mpr hbody]
  decide

/-- Witness for C5: the newline-count clause at a concrete record with
the default options. -/
theorem C5_record_line_format_witness :
    ('\n' ∉ ("chr1" : String).data) ∧
    (recordBody default_args (fun s => s) "-" ⟨"chr1", [65]⟩).data.count '\n' = 0 ∧
    (recordLine default_args (fun s => s) "-" ⟨"chr1", [65]⟩).data.count '\n' = 1 :=
  ⟨by decide,
    (C5_record_line_format default_args (fun s => s) "-" []).2.2.2 ⟨"chr1", [65]⟩
      (by decide)
      (by intro u h; exact Option.noConfusion h)
      (by intro h2; decide)
      (by intro a h; exact Option.noConfusion h)
      (by intro s h; exact Option.noConfusion h)⟩

/-- C6: exactly when header emission is enabled, the single line
`@HD\tVN:1.0\tSO:unsorted` is written before any record line (record
lines all start with `@SQ`); with zero records and the header enabled
the output is exactly that one line and contains no `@SQ`. -/
theorem C6_header_emission (fn : String) (args : Args) (rp : String → String)
    (records : List SeqRecord) :
    (args.header = true →
      write_dict fn args rp records =
        "@HD\tVN:1.0\tSO:unsorted\n" ++ write_records args rp fn records) ∧
    (args.header = false →
      write_dict fn args rp records = write_records args rp fn records) ∧
    (∀ r : SeqRecord,
      List.IsPrefix "@SQ".data (recordLine args rp fn r).data) ∧
    (args.header = true → records = [] →
      write_dict fn args rp records = "@HD\tVN:1.0\tSO:unsorted\n" ∧
      (write_dict fn args rp records).data.count '\n' = 1 ∧
      ¬ List.IsPrefix "@SQ".data (write_dict fn args rp records).data ∧
      ¬ List.IsInfix "@SQ".data (write_dict fn args rp records).data) := by
  refine ⟨?_, ?_, ?_, ?_⟩
  · intro h
    unfold write_dict headerStr
    rw [h]
    simp
  · intro h
    unfold write_dict headerStr
    rw [h]
    simp [String.empty_append]
  · intro r
    show List.IsPrefix "@SQ".data ((recordBody args rp fn r ++ "\n")).data
    unfold recordBody
    exact prefix_append_str _ (prefix_append_str _ (prefix_append_str _
      (prefix_append_str _ (prefix_append_str _ (prefix_append_str _
        (prefix_append_str _ (prefix_append_str _ (prefix_append_str _
          (prefix_append_str _ ⟨"\tSN:".data, by decide⟩)))))))))
  · intro h hrec
    subst hrec
    have heq : write_dict fn args rp [] = "@HD\tVN:1.0\tSO:unsorted\n" := by
      unfold write_dict headerStr write_records
      rw [h]
      simp [String.append_empty]
    refine ⟨heq, ?_, ?_, ?_⟩
    · rw [heq]; decide
    · rw [heq]; decide
    · rw [heq]; decide

/-- Witness for C6: empty input with the header enabled yields exactly
the header line. -/
theorem C6_header_emission_witness :
    (default_args.header = true) ∧ (([] : List SeqRecord) = []) ∧
    (write_dict "-" default_args (fun s => s) [] = "@HD\tVN:1.0\tSO:unsorted\n" ∧
      (write_dict "-" default_args (fun s => s) []).data.count '\n' = 1 ∧
      ¬ List.IsPrefix "@SQ".data (write_dict "-" default_args (fun s => s) []).data ∧
      ¬ List.IsInfix "@SQ".data (write_dict "-" default_args (fun s => s) []).data) :=
  ⟨rfl, rfl, (C6_header_emission "-" default_args (fun s => s) []).2.2.2 rfl rfl⟩

set_option maxRecDepth 100000 in
/-- C7: `digest` is deterministic and depends only on the normalized
bytes; the round-trip input `>chr1\nACGTacgt\n>chr2\nacgtACGT\n` parses
to two records whose digests coincide with the digest of `ACGTacgt`
(length 8), differing only in their names. -/
theorem C7_digest_deterministic :
    (∀ s : List Nat, digest s = digest s) ∧
    (∀ s t : List Nat, normalize s = normalize t → digest s = digest t) ∧
    (parseFasta ">chr1\nACGTacgt\n>chr2\nacgtACGT\n").map (fun r => r.name) =
      ["chr1", "chr2"] ∧
    (parseFasta ">chr1\nACGTacgt\n>chr2\nacgtACGT\n").map (fun r => digest r.seq) =
      [digest ("ACGTacgt".data.map Char.toNat),
       digest ("ACGTacgt".data.map Char.toNat)] ∧
    (digest ("ACGTacgt".data.map Char.toNat)).1 = 8 := by
  refine ⟨fun s => rfl, ?_, by decide, by decide, by decide⟩
  intro s t h
  unfold digest
  rw [h]

set_option maxRecDepth 100000 in
/-- Witness for C7: two byte lists with equal normalizations have equal
digests. -/
theorem C7_digest_deterministic_witness :
    normalize ("acgt".data.map Char.toNat) = normalize ("ACGT".data.map Char.toNat) ∧
    digest ("acgt".data.map Char.toNat) = digest ("ACGT".data.map Char.toNat) :=
  ⟨by decide, C7_digest_deterministic.2.1 _ _ (by decide)⟩

end DictC
